import Mathlib

/-!
Verification of the Voice I/O Controller (frontend/voice.js) of the
astra-ml-assistant repository.  The JavaScript class `VoiceController` is
shallowly embedded: its mutable fields become a Lean structure `St`, its
methods become total functions on `St`, and the asynchronous platform
notifications (recognition end, audio ended, fetch resolution, ...) become
constructors of a step relation `Step`.  JavaScript strings are modelled as
Lean strings (lists of characters); JavaScript numbers occurring in the
controller (pitch and rate constants, audio position) are modelled as
rationals, since the controller only assigns and compares them.  The regular
expression pipeline of `speak` is modelled by explicit left-to-right
scanners, one per `.replace` call, with fuel arguments so that every
function reduces in the kernel.
-/

set_option maxRecDepth 4000

namespace AstraVoice

/-! ### Strings: character-list helpers mirroring the JS string methods -/

/-- The backtick character (written via its code point). -/
def btick : Char := Char.ofNat 96

/-- Whether the first list is an initial segment of the second
(the core of JS `String.prototype.startsWith`). -/
def takesPre : List Char → List Char → Bool
  | [], _ => true
  | _ :: _, [] => false
  | p :: ps, c :: cs => p == c && takesPre ps cs

/-- Whether `pat` occurs contiguously inside the second list
(the core of JS `String.prototype.includes`). -/
def hasSub (pat : List Char) : List Char → Bool
  | [] => pat.isEmpty
  | c :: rest => takesPre pat (c :: rest) || hasSub pat rest

/-- JS `s.startsWith(p)`. -/
def strStarts (s p : String) : Bool := takesPre p.data s.data

/-- JS `s.includes(sub)`. -/
def includes (s sub : String) : Bool := hasSub sub.data s.data

/-- JS `s.split('-')[0]`: the text before the first hyphen. -/
def primary (s : String) : String := String.mk (s.data.takeWhile (fun c => c ≠ '-'))

/-- JS `a || b` on strings: the empty string is falsy. -/
def jsOrStr (a : Option String) (b : String) : String :=
  match a with
  | some x => if x == "" then b else x
  | none => b

/-- JS `a || b` on numbers: `0` is falsy. -/
def jsOrQ (a : Option ℚ) (b : ℚ) : ℚ :=
  match a with
  | some x => if x = 0 then b else x
  | none => b

/-- JS `a || b` on object-valued expressions (objects are always truthy). -/
def jsOrO {α : Type} (a : Option α) (b : Option α) : Option α :=
  match a with
  | some x => some x
  | none => b

/-! ### Data model -/

/-- A platform `SpeechSynthesisVoice`, as far as the controller reads it. -/
structure VoiceDesc where
  name : String
  lang : String
deriving DecidableEq, Repr

/-- One `SpeechSynthesisUtterance` as configured by `speak`. -/
structure Utt where
  text : String
  lang : String
  voice : Option VoiceDesc
  pitch : ℚ
  rate : ℚ
deriving DecidableEq, Repr

/-- The mutable fields of a `VoiceController` instance, together with the
state of the platform objects it owns (the synthesis queue and the `Audio`
element) and the ambient `navigator.language`. -/
structure St where
  recognitionAvail : Bool
  isListening : Bool
  selectedVoice : Option VoiceDesc
  voices : List VoiceDesc
  utteranceQueue : List Utt
  isSpeakingFlag : Bool
  currentLang : String
  preferredGender : String
  preferredLang : String
  defaultPitch : Option ℚ
  isGoogleSpeaking : Bool
  synthQueue : List Utt
  audioPaused : Bool
  audioTime : ℚ
  audioSrc : String
  navLang : String
deriving DecidableEq, Repr

/-- The state after `new VoiceController()` (constructor plus `init()`), for
a platform where speech recognition is or is not supported and with a given
`navigator.language`.  `defaultPitch` is undefined until the first
`setVoice` call, hence `none`. -/
def initSt (recogSupported : Bool) (nav : String) : St :=
  { recognitionAvail := recogSupported
    isListening := false
    selectedVoice := none
    voices := []
    utteranceQueue := []
    isSpeakingFlag := false
    currentLang := "en-US"
    preferredGender := "female"
    preferredLang := "en-US"
    defaultPitch := none
    isGoogleSpeaking := false
    synthQueue := []
    audioPaused := true
    audioTime := 0
    audioSrc := ""
    navLang := nav }

/-! ### setVoice -/

/-- The short-code lookup table of `setVoice`. -/
def langMap : List (String × String) :=
  [("en", "en-US"), ("es", "es-ES"), ("hi", "hi-IN"), ("zh-CN", "zh-CN"),
   ("fr", "fr-FR"), ("de", "de-DE"), ("ja", "ja-JP"), ("ko", "ko-KR"),
   ("pt", "pt-BR"), ("ru", "ru-RU"), ("it", "it-IT"), ("ar", "ar-SA"),
   ("nl", "nl-NL"), ("tr", "tr-TR"), ("pl", "pl-PL"), ("id", "id-ID"),
   ("ta", "ta-IN"), ("bn", "bn-IN"), ("te", "te-IN"), ("kn", "kn-IN"),
   ("ml", "ml-IN"), ("gu", "gu-IN"), ("mr", "mr-IN"), ("pa", "pa-IN")]

/-- JS `langMap[language]` as an optional lookup. -/
def langMapLookup (l : String) : Option String :=
  (langMap.find? (fun p => p.1 == l)).map (fun p => p.2)

/-- The language-code normalization at the top of `setVoice`: `"auto"` is
replaced by `navigator.language || 'en-US'`, then the lookup table is
consulted with the original argument. -/
def normalizeLang (nav : String) (language : String) : String :=
  let langCode := if language == "auto" then (if nav == "" then "en-US" else nav) else language
  match langMapLookup language with
  | some m => m
  | none => langCode

def priorityKeywords : List String := ["Natural", "Google", "Microsoft", "Premium", "Enhanced"]

def maleKeywords : List String :=
  ["Male", "David", "Mark", "Guy", "Daniel",
   "Pablo", "Raul", "Stefan", "Hemant", "Ravi",
   "Paul", "Mathieu", "Jerome",
   "Ichiro", "Haruto", "Takumi",
   "Tae-Theo", "Min-Ho",
   "Ivan", "Pavel",
   "Ahmet", "Mehmet",
   "Budi",
   "Google US English", "Microsoft Stefan", "Microsoft Ravi", "Microsoft Hemant"]

def femaleKeywords : List String :=
  ["Female", "Zira", "Samantha", "Google UK English Female", "Microsoft Kalpana",
   "Microsoft Heera", "Zira", "Salli", "Huihui", "Yaoyao", "Haruka", "Ayumi"]

/-- Whether some keyword of `ks` occurs in the voice's name
(JS `ks.some(k => v.name.includes(k))`). -/
def nameHasAny (v : VoiceDesc) (ks : List String) : Bool := ks.any (fun k => includes v.name k)

/-- The `bestVoice` computation of `setVoice`: filter the catalog by the
primary subtag of the normalized code, then apply the gender-specific
`find(...) || find(...) || ...` chains; when the filtered list is empty the
JS `bestVoice` stays `null`. -/
def setVoiceSel (catalog : List VoiceDesc) (gender : String) (langCode : String) :
    Option VoiceDesc :=
  let voices := catalog.filter (fun v => strStarts v.lang (primary langCode))
  if voices.isEmpty then none
  else if gender == "female" then
    jsOrO (voices.find? (fun v => nameHasAny v femaleKeywords && nameHasAny v priorityKeywords))
      (jsOrO (voices.find? (fun v => nameHasAny v femaleKeywords)) voices.head?)
  else
    jsOrO (voices.find? (fun v => nameHasAny v maleKeywords && nameHasAny v priorityKeywords))
      (jsOrO (voices.find? (fun v => nameHasAny v maleKeywords))
        (jsOrO (voices.find? (fun v => !(nameHasAny v femaleKeywords))) voices.head?))

/-- `setVoice(gender, language)`: resolves the language code, recomputes
`selectedVoice`, and records the preferences and the gender-based default
pitch.  The JS method compares against `'female'` when choosing the keyword
chain but against `'male'` when choosing the pitch. -/
def setVoiceSt (s : St) (gender language : String) : St :=
  let langCode := normalizeLang s.navLang language
  { s with
    selectedVoice := setVoiceSel s.voices gender langCode
    currentLang := langCode
    preferredGender := gender
    preferredLang := language
    defaultPitch := some (if gender == "male" then (0.85 : ℚ) else (1.15 : ℚ)) }

/-- `loadVoices()`: replace the catalog with the platform's current list and,
when it is non-empty, re-run `setVoice` with the stored preferences. -/
def loadVoicesSt (s : St) (cat : List VoiceDesc) : St :=
  let s1 := { s with voices := cat }
  if cat.isEmpty then s1 else setVoiceSt s1 s1.preferredGender s1.preferredLang

/-! ### Lemmas about the selection chains of setVoice -/

theorem setVoiceSt_selectedVoice (s : St) (g l : String) :
    (setVoiceSt s g l).selectedVoice = setVoiceSel s.voices g (normalizeLang s.navLang l) := rfl

theorem jsOrO_chain_some_mem {α : Type} {l : List α} {o : Option α}
    (ho : ∃ v, o = some v ∧ v ∈ l) (p : α → Bool) :
    ∃ v, jsOrO (l.find? p) o = some v ∧ v ∈ l := by
  cases hf : l.find? p with
  | some w => exact ⟨w, rfl, List.mem_of_find?_eq_some hf⟩
  | none =>
    obtain ⟨v, hv, hm⟩ := ho
    exact ⟨v, by simp [jsOrO, hv], hm⟩

theorem head?_some_mem {α : Type} {l : List α} (h : l ≠ []) :
    ∃ v, l.head? = some v ∧ v ∈ l := by
  cases l with
  | nil => exact absurd rfl h
  | cons a t => exact ⟨a, rfl, List.mem_cons_self a t⟩

/-- When the language-filtered catalog is non-empty, `bestVoice` is some
member of the filtered catalog, whichever gender branch runs. -/
theorem setVoiceSel_some_mem (catalog : List VoiceDesc) (gender langCode : String)
    (h : catalog.filter (fun v => strStarts v.lang (primary langCode)) ≠ []) :
    ∃ v, setVoiceSel catalog gender langCode = some v ∧
      v ∈ catalog.filter (fun v => strStarts v.lang (primary langCode)) := by
  have hbase := head?_some_mem h
  have hne : (catalog.filter (fun v => strStarts v.lang (primary langCode))).isEmpty = false := by
    cases hfl : catalog.filter (fun v => strStarts v.lang (primary langCode)) with
    | nil => exact absurd hfl h
    | cons a t => rfl
  unfold setVoiceSel
  simp only [hne, Bool.false_eq_true, if_false]
  by_cases hg : (gender == "female") = true
  · simp only [hg, if_true]
    exact jsOrO_chain_some_mem (jsOrO_chain_some_mem hbase _) _
  · simp only [hg, if_false]
    exact jsOrO_chain_some_mem (jsOrO_chain_some_mem (jsOrO_chain_some_mem hbase _) _) _

/-- C4: whenever at least one catalog voice's language tag starts with the
normalized tag's primary subtag (the filtered catalog is non-empty),
`setVoice` selects a voice whose language tag starts with that primary
subtag. -/
theorem setVoice_selects_matching_language (s : St) (gender language : String)
    (h : s.voices.filter (fun v => strStarts v.lang (primary (normalizeLang s.navLang language))) ≠ []) :
    ∃ v, (setVoiceSt s gender language).selectedVoice = some v ∧
      strStarts v.lang (primary (normalizeLang s.navLang language)) = true := by
  obtain ⟨v, hsel, hmem⟩ := setVoiceSel_some_mem s.voices gender (normalizeLang s.navLang language) h
  exact ⟨v, by rw [setVoiceSt_selectedVoice, hsel], (List.mem_filter.mp hmem).2⟩

/-- A catalog holding a single English voice, used to exercise the claims
about language mismatches. -/
def stEnOnly : St := { initSt true "en-US" with voices := [⟨"Google US English", "en-US"⟩] }

theorem setVoice_selects_matching_language_witness :
    ∃ v, (setVoiceSt stEnOnly "female" "en").selectedVoice = some v ∧
      strStarts v.lang (primary (normalizeLang stEnOnly.navLang "en")) = true :=
  setVoice_selects_matching_language stEnOnly "female" "en" (by decide)

/-- C3 counterexample: with a non-empty catalog whose single entry is an
English voice, `setVoice('female', 'fr')` leaves `selectedVoice` null — it
does not fall back to the first entry of the whole catalog. -/
theorem setVoice_no_language_match_cex :
    stEnOnly.voices ≠ [] ∧ (setVoiceSt stEnOnly "female" "fr").selectedVoice = none :=
  ⟨by decide, by decide⟩

/-- C3 (amended): `setVoice` leaves the selected voice absent exactly when no
catalog voice's language tag starts with the normalized tag's primary
subtag; there is no whole-catalog fallback for a non-empty catalog without a
language match. -/
theorem setVoice_selected_none_iff (s : St) (gender language : String) :
    (setVoiceSt s gender language).selectedVoice = none ↔
      s.voices.filter (fun v => strStarts v.lang (primary (normalizeLang s.navLang language))) = [] := by
  rw [setVoiceSt_selectedVoice]
  constructor
  · intro hnone
    by_cases hne : s.voices.filter (fun v => strStarts v.lang (primary (normalizeLang s.navLang language))) = []
    · exact hne
    · obtain ⟨v, hsel, _⟩ := setVoiceSel_some_mem s.voices gender _ hne
      rw [hsel] at hnone
      exact absurd hnone (by simp)
  · intro he
    simp [setVoiceSel, he]

/-- A catalog holding only the French voice of the C6 scenario. -/
def stFrOnly : St := { initSt true "en-US" with voices := [⟨"Google français", "fr-FR"⟩] }

/-- C6: `setVoice('male', 'fr')` on a catalog whose only entry is
`{name: "Google français", lang: "fr-FR"}` matches no male keyword and no
female keyword, so the male-only not-female fallback picks that voice, and
the default pitch becomes 0.85. -/
theorem setVoice_male_fr_scenario :
    nameHasAny ⟨"Google français", "fr-FR"⟩ maleKeywords = false ∧
    nameHasAny ⟨"Google français", "fr-FR"⟩ femaleKeywords = false ∧
    (setVoiceSt stFrOnly "male" "fr").selectedVoice = some ⟨"Google français", "fr-FR"⟩ ∧
    (setVoiceSt stFrOnly "male" "fr").defaultPitch = some (0.85 : ℚ) :=
  ⟨by decide, by decide, by decide, by rfl⟩

/-! ### The sanitization pipeline of speak

Each JS `.replace(regex, ...)` call is modelled by a left-to-right scanner.
The scanners carry a fuel argument so that they are structurally recursive
and reduce inside the kernel; the wrappers supply `length + 1` fuel, which
is sufficient because every recursive call consumes at least one character.
A scanner that runs out of fuel returns its argument unchanged. -/

/-- JS `\w`: ASCII letters, digits, underscore. -/
def isWordChar (c : Char) : Bool := c.isAlphanum || c == '_'

/-- JS `\s` (also the character class trimmed by `String.prototype.trim`). -/
def isJsSpace (c : Char) : Bool :=
  c == ' ' || c == '\t' || c == '\n' || c == '\r' ||
  c == '\x0b' || c == '\x0c' || c == '\u00A0' || c == '\u1680' ||
  (('\u2000' ≤ c) && (c ≤ '\u200A')) || c == '\u2028' || c == '\u2029' ||
  c == '\u202F' || c == '\u205F' || c == '\u3000' || c == '\uFEFF'

/-- Split a character list at the first occurrence of three consecutive
backticks, returning the part before and the part after. -/
def splitAtTriple : List Char → Option (List Char × List Char)
  | [] => none
  | c :: rest =>
    if c = btick ∧ rest.take 2 = [btick, btick] then some ([], rest.drop 2)
    else (splitAtTriple rest).map (fun p => (c :: p.1, p.2))

/-- Scanner for `/```(\w+)?\s*([\s\S]*?)```/g` with replacement
`Here is the <lang> code. End of code.` (surrounded by spaces, the language
word inserted when present). -/
def stripFencesF : Nat → List Char → List Char
  | 0, l => l
  | _ + 1, [] => []
  | fuel + 1, c :: rest =>
    if c = btick ∧ rest.take 2 = [btick, btick] then
      let r0 := rest.drop 2
      let w := r0.takeWhile isWordChar
      let r1 := (r0.dropWhile isWordChar).dropWhile isJsSpace
      match splitAtTriple r1 with
      | some p => (" Here is the ".data ++ w ++ " code. End of code. ".data) ++ stripFencesF fuel p.2
      | none => c :: stripFencesF fuel rest
    else c :: stripFencesF fuel rest

def stripFences (l : List Char) : List Char := stripFencesF (l.length + 1) l

/-- Scanner for `` /`([^`]+)`/g `` with replacement `" code $1 "`. -/
def stripInlineCodeF : Nat → List Char → List Char
  | 0, l => l
  | _ + 1, [] => []
  | fuel + 1, c :: rest =>
    if c = btick then
      let content := rest.takeWhile (fun x => x ≠ btick)
      match rest.dropWhile (fun x => x ≠ btick) with
      | _ :: rest2 =>
        if content.isEmpty then c :: stripInlineCodeF fuel rest
        else (" code ".data ++ content ++ [' ']) ++ stripInlineCodeF fuel rest2
      | [] => c :: stripInlineCodeF fuel rest
    else c :: stripInlineCodeF fuel rest

def stripInlineCode (l : List Char) : List Char := stripInlineCodeF (l.length + 1) l

/-- Split at the first occurrence of two consecutive dollar signs. -/
def splitAtDollar2 : List Char → Option (List Char × List Char)
  | [] => none
  | c :: rest =>
    if c = '$' ∧ rest.take 1 = ['$'] then some ([], rest.drop 1)
    else (splitAtDollar2 rest).map (fun p => (c :: p.1, p.2))

/-- Scanner for `/\$\$([\s\S]*?)\$\$/g` with replacement
`" The formula is: $1 "`. -/
def stripBlockMathF : Nat → List Char → List Char
  | 0, l => l
  | _ + 1, [] => []
  | fuel + 1, c :: rest =>
    if c = '$' ∧ rest.take 1 = ['$'] then
      match splitAtDollar2 (rest.drop 1) with
      | some p => (" The formula is: ".data ++ p.1 ++ [' ']) ++ stripBlockMathF fuel p.2
      | none => c :: stripBlockMathF fuel rest
    else c :: stripBlockMathF fuel rest

def stripBlockMath (l : List Char) : List Char := stripBlockMathF (l.length + 1) l

/-- Scanner for `/\$([^$]+)\$/g` with replacement `" formula $1 "`. -/
def stripInlineMathF : Nat → List Char → List Char
  | 0, l => l
  | _ + 1, [] => []
  | fuel + 1, c :: rest =>
    if c = '$' then
      let content := rest.takeWhile (fun x => x ≠ '$')
      match rest.dropWhile (fun x => x ≠ '$') with
      | _ :: rest2 =>
        if content.isEmpty then c :: stripInlineMathF fuel rest
        else (" formula ".data ++ content ++ [' ']) ++ stripInlineMathF fuel rest2
      | [] => c :: stripInlineMathF fuel rest
    else c :: stripInlineMathF fuel rest

def stripInlineMath (l : List Char) : List Char := stripInlineMathF (l.length + 1) l

/-- Scanner for `/\[([^\]]+)\]\([^\)]+\)/g` with replacement `$1` (the link
label). -/
def stripLinksF : Nat → List Char → List Char
  | 0, l => l
  | _ + 1, [] => []
  | fuel + 1, c :: rest =>
    if c = '[' then
      let label := rest.takeWhile (fun x => x ≠ ']')
      match rest.dropWhile (fun x => x ≠ ']') with
      | _ :: r2 =>
        if label.isEmpty then c :: stripLinksF fuel rest
        else
          match r2 with
          | '(' :: r3 =>
            let url := r3.takeWhile (fun x => x ≠ ')')
            match r3.dropWhile (fun x => x ≠ ')') with
            | _ :: rest2 =>
              if url.isEmpty then c :: stripLinksF fuel rest
              else label ++ stripLinksF fuel rest2
            | [] => c :: stripLinksF fuel rest
          | _ => c :: stripLinksF fuel rest
      | [] => c :: stripLinksF fuel rest
    else c :: stripLinksF fuel rest

def stripLinks (l : List Char) : List Char := stripLinksF (l.length + 1) l

/-- JS `.replace(/[*#_]/g, '')`. -/
def stripMarks (l : List Char) : List Char :=
  l.filter (fun c => !(c == '*' || c == '#' || c == '_'))

/-- Scanner for `.replace(/\s+/g, ' ')`. -/
def collapseWsF : Nat → List Char → List Char
  | 0, l => l
  | _ + 1, [] => []
  | fuel + 1, c :: rest =>
    if isJsSpace c then ' ' :: collapseWsF fuel (rest.dropWhile isJsSpace)
    else c :: collapseWsF fuel rest

def collapseWs (l : List Char) : List Char := collapseWsF (l.length + 1) l

/-- Remove trailing whitespace (the right half of JS `trim()`). -/
def dropTrailWs : List Char → List Char
  | [] => []
  | c :: rest =>
    let r := dropTrailWs rest
    if r.isEmpty && isJsSpace c then [] else c :: r

/-- JS `String.prototype.trim`. -/
def trimWs (l : List Char) : List Char := dropTrailWs (l.dropWhile isJsSpace)

/-- The whole `readableText` computation of `speak`, on character lists:
code fences, inline code, block math, inline math, links, markdown marks,
whitespace collapsing and trimming, in source order. -/
def sanitizeL (l : List Char) : List Char :=
  trimWs (collapseWs (stripMarks (stripLinks (stripInlineMath (stripBlockMath
    (stripInlineCode (stripFences l)))))))

/-- The sanitization step of `speak` as a string transformation. -/
def sanitize (s : String) : String := String.mk (sanitizeL s.data)

/-- Sentence-terminal punctuation of the segmentation regex. -/
def isTermCh (c : Char) : Bool := c == '.' || c == '!' || c == '?'

/-- Scanner for `readableText.match(/[^.!?]+[.!?]+|[^.!?]+$/g)`: the list of
matches (a run of non-terminators followed by a run of terminators, or a
final run of non-terminators). -/
def sentSplitF : Nat → List Char → List (List Char)
  | 0, _ => []
  | _ + 1, [] => []
  | fuel + 1, c :: rest =>
    if isTermCh c then sentSplitF fuel rest
    else
      let run := (c :: rest).takeWhile (fun x => !(isTermCh x))
      let r1 := (c :: rest).dropWhile (fun x => !(isTermCh x))
      (run ++ r1.takeWhile isTermCh) :: sentSplitF fuel (r1.dropWhile isTermCh)

def sentSplit (l : List Char) : List (List Char) := sentSplitF (l.length + 1) l

example : sanitize "Use plain text. OK." = "Use plain text. OK." := by decide

example : includes (sanitize (String.mk ([btick] ++ "foo()".data ++ [btick]))) "code foo()" = true := by
  decide

example :
    sanitize (String.mk ([btick, btick, btick] ++ "python".data ++ ['\n'] ++ "print(1)".data
      ++ ['\n'] ++ [btick, btick, btick]))
      = "Here is the python code. End of code." := by decide

example :
    sanitize (String.mk [btick, btick, btick, ' ', 'a', 'b', 'c', ' ', btick, btick])
      = String.mk ([btick, btick] ++ " code abc ".data ++ [btick]) := by decide

example : sentSplit "Hi there. Bye! Ok".data = ["Hi there.".data, " Bye!".data, " Ok".data] := by
  decide

example :
    sanitize (sanitize (String.mk [btick, btick, btick, ' ', 'a', 'b', 'c', ' ', btick, btick]))
      = String.mk ([btick] ++ " code code abc".data) := by decide

/-! ### Scanners are the identity on strings without their trigger character -/

theorem stripFencesF_id (fuel : Nat) (l : List Char) (h : btick ∉ l) :
    stripFencesF fuel l = l := by
  induction fuel generalizing l with
  | zero => rfl
  | succ n ih =>
    cases l with
    | nil => rfl
    | cons c rest =>
      have hc : c ≠ btick := fun he => h (he ▸ List.mem_cons_self c rest)
      have hr : btick ∉ rest := fun hm => h (List.mem_cons_of_mem c hm)
      simp only [stripFencesF]
      rw [if_neg (fun hand => hc hand.1), ih rest hr]

theorem stripInlineCodeF_id (fuel : Nat) (l : List Char) (h : btick ∉ l) :
    stripInlineCodeF fuel l = l := by
  induction fuel generalizing l with
  | zero => rfl
  | succ n ih =>
    cases l with
    | nil => rfl
    | cons c rest =>
      have hc : c ≠ btick := fun he => h (he ▸ List.mem_cons_self c rest)
      have hr : btick ∉ rest := fun hm => h (List.mem_cons_of_mem c hm)
      simp only [stripInlineCodeF]
      rw [if_neg hc, ih rest hr]

theorem stripBlockMathF_id (fuel : Nat) (l : List Char) (h : '$' ∉ l) :
    stripBlockMathF fuel l = l := by
  induction fuel generalizing l with
  | zero => rfl
  | succ n ih =>
    cases l with
    | nil => rfl
    | cons c rest =>
      have hc : c ≠ '$' := fun he => h (he ▸ List.mem_cons_self c rest)
      have hr : '$' ∉ rest := fun hm => h (List.mem_cons_of_mem c hm)
      simp only [stripBlockMathF]
      rw [if_neg (fun hand => hc hand.1), ih rest hr]

theorem stripInlineMathF_id (fuel : Nat) (l : List Char) (h : '$' ∉ l) :
    stripInlineMathF fuel l = l := by
  induction fuel generalizing l with
  | zero => rfl
  | succ n ih =>
    cases l with
    | nil => rfl
    | cons c rest =>
      have hc : c ≠ '$' := fun he => h (he ▸ List.mem_cons_self c rest)
      have hr : '$' ∉ rest := fun hm => h (List.mem_cons_of_mem c hm)
      simp only [stripInlineMathF]
      rw [if_neg hc, ih rest hr]

theorem stripLinksF_id (fuel : Nat) (l : List Char) (h : '[' ∉ l) :
    stripLinksF fuel l = l := by
  induction fuel generalizing l with
  | zero => rfl
  | succ n ih =>
    cases l with
    | nil => rfl
    | cons c rest =>
      have hc : c ≠ '[' := fun he => h (he ▸ List.mem_cons_self c rest)
      have hr : '[' ∉ rest := fun hm => h (List.mem_cons_of_mem c hm)
      simp only [stripLinksF]
      rw [if_neg hc, ih rest hr]

theorem stripMarks_id (l : List Char)
    (h : ∀ c ∈ l, c ≠ '*' ∧ c ≠ '#' ∧ c ≠ '_') : stripMarks l = l :=
  List.filter_eq_self.mpr (fun a ha => by
    obtain ⟨h1, h2, h3⟩ := h a ha
    simp [h1, h2, h3])

/-! ### Membership through the final pipeline stages -/

theorem mem_dropTrailWs {l : List Char} {c : Char} (h : c ∈ dropTrailWs l) : c ∈ l := by
  induction l with
  | nil => exact absurd h (List.not_mem_nil c)
  | cons a rest ih =>
    simp only [dropTrailWs] at h
    by_cases hcond : ((dropTrailWs rest).isEmpty && isJsSpace a) = true
    · rw [if_pos hcond] at h
      exact absurd h (List.not_mem_nil c)
    · rw [if_neg hcond] at h
      rcases List.mem_cons.mp h with he | hm
      · exact he ▸ List.mem_cons_self a rest
      · exact List.mem_cons_of_mem a (ih hm)

theorem mem_trimWs {l : List Char} {c : Char} (h : c ∈ trimWs l) : c ∈ l :=
  (List.dropWhile_sublist isJsSpace).mem (mem_dropTrailWs h)

theorem mem_collapseWsF {fuel : Nat} {l : List Char} {c : Char}
    (h : c ∈ collapseWsF fuel l) : c ∈ l ∨ c = ' ' := by
  induction fuel generalizing l with
  | zero => exact Or.inl h
  | succ n ih =>
    cases l with
    | nil => exact Or.inl h
    | cons a rest =>
      simp only [collapseWsF] at h
      by_cases ha : isJsSpace a = true
      · rw [if_pos ha] at h
        rcases List.mem_cons.mp h with he | hm
        · exact Or.inr he
        · rcases ih hm with hin | hsp
          · exact Or.inl (List.mem_cons_of_mem a ((List.dropWhile_sublist isJsSpace).mem hin))
          · exact Or.inr hsp
      · rw [if_neg ha] at h
        rcases List.mem_cons.mp h with he | hm
        · exact Or.inl (he ▸ List.mem_cons_self a rest)
        · rcases ih hm with hin | hsp
          · exact Or.inl (List.mem_cons_of_mem a hin)
          · exact Or.inr hsp

theorem mem_stripMarks_props {l : List Char} {c : Char} (h : c ∈ stripMarks l) :
    c ≠ '*' ∧ c ≠ '#' ∧ c ≠ '_' := by
  have := List.of_mem_filter h
  simp only [Bool.not_eq_true', Bool.or_eq_false_iff, beq_eq_false_iff_ne] at this
  exact ⟨this.1.1, this.1.2, this.2⟩

/-! ### Collapsed-and-trimmed strings are fixed points of collapse and trim -/

/-- The head of the list, if any, is not whitespace. -/
def headNonSpace (l : List Char) : Bool :=
  match l with
  | [] => true
  | d :: _ => !(isJsSpace d)

/-- Every whitespace character in the list is a plain space and is not
followed by further whitespace. -/
def spacedOk : List Char → Bool
  | [] => true
  | c :: rest => (!(isJsSpace c) || (c == ' ' && headNonSpace rest)) && spacedOk rest

theorem headNonSpace_dropWhile (l : List Char) :
    headNonSpace (l.dropWhile isJsSpace) = true := by
  induction l with
  | nil => rfl
  | cons a rest ih =>
    rw [List.dropWhile_cons]
    by_cases ha : isJsSpace a = true
    · rw [if_pos ha]; exact ih
    · rw [if_neg ha]
      simp only [headNonSpace, Bool.not_eq_true']
      exact Bool.not_eq_true _ ▸ (by simpa using ha)

theorem dropWhile_of_headNonSpace {l : List Char} (h : headNonSpace l = true) :
    l.dropWhile isJsSpace = l := by
  cases l with
  | nil => rfl
  | cons a rest =>
    simp only [headNonSpace, Bool.not_eq_true'] at h
    rw [List.dropWhile_cons, if_neg (by simp [h])]

theorem headNonSpace_collapseWsF (fuel : Nat) {l : List Char}
    (h : headNonSpace l = true) : headNonSpace (collapseWsF fuel l) = true := by
  cases fuel with
  | zero => exact h
  | succ n =>
    cases l with
    | nil => exact h
    | cons a rest =>
      simp only [headNonSpace, Bool.not_eq_true'] at h
      simp only [collapseWsF]
      rw [if_neg (by simp [h])]
      simp only [headNonSpace, Bool.not_eq_true']
      exact h

theorem spacedOk_tail {c : Char} {l : List Char} (h : spacedOk (c :: l) = true) :
    spacedOk l = true := by
  simp only [spacedOk, Bool.and_eq_true] at h
  exact h.2

theorem spacedOk_collapseWsF (fuel : Nat) (l : List Char) (hf : l.length < fuel) :
    spacedOk (collapseWsF fuel l) = true := by
  induction fuel generalizing l with
  | zero => omega
  | succ n ih =>
    cases l with
    | nil => rfl
    | cons a rest =>
      simp only [collapseWsF]
      by_cases ha : isJsSpace a = true
      · rw [if_pos ha]
        have hlen : (rest.dropWhile isJsSpace).length < n := by
          have := (List.dropWhile_sublist (l := rest) isJsSpace).length_le
          simp only [List.length_cons] at hf
          omega
        simp only [spacedOk, Bool.and_eq_true]
        refine ⟨?_, ih _ hlen⟩
        have hh : headNonSpace (collapseWsF n (rest.dropWhile isJsSpace)) = true :=
          headNonSpace_collapseWsF n (headNonSpace_dropWhile rest)
        simp [hh]
      · rw [if_neg ha]
        have hlen : rest.length < n := by
          simp only [List.length_cons] at hf; omega
        simp only [spacedOk, Bool.and_eq_true]
        exact ⟨by simp [ha], ih _ hlen⟩

theorem collapseWsF_id_of_spacedOk (fuel : Nat) (l : List Char)
    (h : spacedOk l = true) : collapseWsF fuel l = l := by
  induction fuel generalizing l with
  | zero => rfl
  | succ n ih =>
    cases l with
    | nil => rfl
    | cons a rest =>
      simp only [spacedOk, Bool.and_eq_true] at h
      obtain ⟨h1, h2⟩ := h
      simp only [collapseWsF]
      by_cases ha : isJsSpace a = true
      · rw [if_pos ha]
        rw [ha] at h1
        simp only [Bool.not_true, Bool.false_or, Bool.and_eq_true, beq_iff_eq] at h1
        obtain ⟨hsp, hhead⟩ := h1
        rw [dropWhile_of_headNonSpace hhead, ih rest h2, hsp]
      · rw [if_neg ha, ih rest h2]

theorem spacedOk_suffix : ∀ (a b : List Char), spacedOk (a ++ b) = true → spacedOk b = true := by
  intro a b h
  induction a with
  | nil => exact h
  | cons x as ih =>
    exact ih (spacedOk_tail h)

theorem headNonSpace_append_left {a b : List Char} (h : headNonSpace (a ++ b) = true) :
    headNonSpace a = true := by
  cases a with
  | nil => rfl
  | cons x as => exact h

theorem spacedOk_append_left : ∀ (a b : List Char), spacedOk (a ++ b) = true →
    spacedOk a = true := by
  intro a b h
  induction a with
  | nil => rfl
  | cons x as ih =>
    simp only [List.cons_append, spacedOk, Bool.and_eq_true] at h
    obtain ⟨h1, h2⟩ := h
    simp only [spacedOk, Bool.and_eq_true]
    refine ⟨?_, ih h2⟩
    rcases Bool.or_eq_true_iff.mp h1 with hn | hsp
    · simp [hn]
    · simp only [Bool.and_eq_true] at hsp
      have := headNonSpace_append_left hsp.2
      simp [hsp.1, this]

theorem spacedOk_dropWhile {l : List Char} (h : spacedOk l = true) :
    spacedOk (l.dropWhile isJsSpace) = true :=
  spacedOk_suffix _ _ (by rw [List.takeWhile_append_dropWhile isJsSpace l]; exact h)

theorem dropTrailWs_append (l : List Char) :
    ∃ t, l = dropTrailWs l ++ t ∧ ∀ c ∈ t, isJsSpace c = true := by
  induction l with
  | nil => exact ⟨[], rfl, fun c hc => absurd hc (List.not_mem_nil c)⟩
  | cons a rest ih =>
    obtain ⟨t, ht, hts⟩ := ih
    simp only [dropTrailWs]
    by_cases hcond : ((dropTrailWs rest).isEmpty && isJsSpace a) = true
    · rw [if_pos hcond]
      rw [Bool.and_eq_true, List.isEmpty_iff] at hcond
      refine ⟨a :: rest, rfl, fun c hc => ?_⟩
      rcases List.mem_cons.mp hc with he | hm
      · exact he ▸ hcond.2
      · rw [ht, hcond.1, List.nil_append] at hm
        exact hts c hm
    · rw [if_neg hcond]
      exact ⟨t, by rw [List.cons_append]; exact congrArg (a :: ·) ht, hts⟩

theorem spacedOk_dropTrailWs {l : List Char} (h : spacedOk l = true) :
    spacedOk (dropTrailWs l) = true := by
  obtain ⟨t, ht, _⟩ := dropTrailWs_append l
  exact spacedOk_append_left _ t (ht ▸ h)

theorem headNonSpace_dropTrailWs {l : List Char} (h : headNonSpace l = true) :
    headNonSpace (dropTrailWs l) = true := by
  cases l with
  | nil => rfl
  | cons a rest =>
    simp only [dropTrailWs]
    by_cases hcond : ((dropTrailWs rest).isEmpty && isJsSpace a) = true
    · rw [if_pos hcond]; rfl
    · rw [if_neg hcond]; exact h

theorem dropTrailWs_idem (l : List Char) : dropTrailWs (dropTrailWs l) = dropTrailWs l := by
  induction l with
  | nil => rfl
  | cons a rest ih =>
    simp only [dropTrailWs]
    by_cases hcond : ((dropTrailWs rest).isEmpty && isJsSpace a) = true
    · rw [if_pos hcond]; rfl
    · rw [if_neg hcond]
      simp only [dropTrailWs, ih]
      rw [if_neg hcond]

theorem collapseWs_trimWs_fix (x : List Char) :
    collapseWs (trimWs (collapseWs x)) = trimWs (collapseWs x) ∧
    trimWs (trimWs (collapseWs x)) = trimWs (collapseWs x) := by
  have hm : spacedOk (collapseWs x) = true :=
    spacedOk_collapseWsF (x.length + 1) x (by omega)
  have h1 : spacedOk ((collapseWs x).dropWhile isJsSpace) = true := spacedOk_dropWhile hm
  have h2 : spacedOk (trimWs (collapseWs x)) = true := spacedOk_dropTrailWs h1
  have hhead : headNonSpace (trimWs (collapseWs x)) = true :=
    headNonSpace_dropTrailWs (headNonSpace_dropWhile (collapseWs x))
  refine ⟨collapseWsF_id_of_spacedOk _ _ h2, ?_⟩
  show dropTrailWs ((trimWs (collapseWs x)).dropWhile isJsSpace) = trimWs (collapseWs x)
  rw [dropWhile_of_headNonSpace hhead]
  exact dropTrailWs_idem _

/-! ### C7: idempotence of the sanitizer -/

/-- The input on which re-sanitizing changes the output: three backticks,
a word, two backticks.  The first pass leaves two leading backticks and one
trailing backtick; the second pass then matches a new inline-code span. -/
def c7BadInput : String := String.mk [btick, btick, btick, ' ', 'a', 'b', 'c', ' ', btick, btick]

/-- C7 counterexample: the sanitization step of `speak` is not idempotent on
its own output.  On the input of three backticks, a word and two backticks,
the first pass produces a string on which a second pass matches a fresh
inline-code span and changes the text again. -/
theorem sanitize_not_idempotent_cex : sanitize (sanitize c7BadInput) ≠ sanitize c7BadInput := by
  decide

/-- C7 (amended): the sanitization step is total and side-effect-free (it is
a pure function of the input string), and it is idempotent on every input
whose sanitized form contains no leftover markup trigger character (backtick,
dollar sign, or opening square bracket); unpaired trigger characters
surviving the first pass can recombine and make a second pass differ. -/
theorem sanitize_idempotent_on_plain (s : String)
    (hb : btick ∉ (sanitize s).data) (hd : '$' ∉ (sanitize s).data)
    (hk : '[' ∉ (sanitize s).data) :
    sanitize (sanitize s) = sanitize s := by
  have hmarks : ∀ c ∈ (sanitize s).data, c ≠ '*' ∧ c ≠ '#' ∧ c ≠ '_' := by
    intro c hc
    have hc2 : c ∈ collapseWs (stripMarks (stripLinks (stripInlineMath (stripBlockMath
        (stripInlineCode (stripFences s.data)))))) := mem_trimWs hc
    rcases mem_collapseWsF hc2 with hin | hsp
    · exact mem_stripMarks_props hin
    · subst hsp
      refine ⟨by decide, by decide, by decide⟩
  show String.mk (sanitizeL (sanitize s).data) = String.mk (sanitize s).data
  refine congrArg String.mk ?_
  show trimWs (collapseWs (stripMarks (stripLinks (stripInlineMath (stripBlockMath
      (stripInlineCode (stripFences (sanitize s).data))))))) = (sanitize s).data
  rw [show stripFences (sanitize s).data = (sanitize s).data from
        stripFencesF_id _ _ hb,
      show stripInlineCode (sanitize s).data = (sanitize s).data from
        stripInlineCodeF_id _ _ hb,
      show stripBlockMath (sanitize s).data = (sanitize s).data from
        stripBlockMathF_id _ _ hd,
      show stripInlineMath (sanitize s).data = (sanitize s).data from
        stripInlineMathF_id _ _ hd,
      show stripLinks (sanitize s).data = (sanitize s).data from
        stripLinksF_id _ _ hk,
      stripMarks_id _ hmarks]
  show trimWs (collapseWs (trimWs (collapseWs (stripMarks (stripLinks (stripInlineMath
      (stripBlockMath (stripInlineCode (stripFences s.data))))))))) = _
  rw [(collapseWs_trimWs_fix _).1, (collapseWs_trimWs_fix _).2]
  rfl

theorem sanitize_idempotent_on_plain_witness :
    sanitize (sanitize "hi *there*") = sanitize "hi *there*" :=
  sanitize_idempotent_on_plain "hi *there*" (by decide) (by decide) (by decide)

/-! ### speak, stopSpeaking and the listening lifecycle -/

/-- The silent payload played by `unlock()`. -/
def silentWav : String :=
  "data:audio/wav;base64,UklGRigAAABXQVZFWm10IBAAAAABAAEARKwAAIhYAQACABAAZGF0YQQAAAAAAA=="

/-- The recognized keys of the `options` argument of `speak`.  The callback
values themselves live outside the state; only their presence is
observable in the controller's behaviour. -/
structure SpeakOptions where
  lang : Option String
  pitch : Option ℚ
  rate : Option ℚ
  hasOnStart : Bool
  hasOnEnd : Bool
deriving DecidableEq, Repr

/-- `stopSpeaking()`: `synthesis.cancel()`, `audio.pause()`,
`audio.currentTime = 0`, `isGoogleSpeaking = false`.  The field
`isSpeakingFlag` is not assigned. -/
def stopSpeakingSt (s : St) : St :=
  { s with synthQueue := [], audioPaused := true, audioTime := 0, isGoogleSpeaking := false }

/-- `stopListening()`: when recognition is initialized and a session is
listening, request the platform stop and clear the flag synchronously;
otherwise do nothing. -/
def stopListeningSt (s : St) : St :=
  if s.recognitionAvail && s.isListening then { s with isListening := false } else s

/-- JS `name.toLowerCase()` as used by the pitch-shift heuristic. -/
def lowerName (n : String) : String := String.mk (n.data.map Char.toLower)

/-- One `SpeechSynthesisUtterance` of the local path of `speak`: the text is
the trimmed sentence, the language the effective tag; pitch and rate come
from the male pitch-shift heuristic, else from
`options.pitch || defaultPitch || 1.0` and `options.rate || 0.9`. -/
def uttOf (s : St) (lang : String) (o : SpeakOptions) (sent : List Char) : Utt :=
  let maleShift :=
    s.preferredGender == "male" &&
      (match s.selectedVoice with
       | some v =>
           !(includes (lowerName v.name) "male") &&
           !(includes (lowerName v.name) "david") &&
           !(includes (lowerName v.name) "mark")
       | none => false)
  if maleShift then
    { text := String.mk (trimWs sent), lang := lang, voice := s.selectedVoice,
      pitch := (0.7 : ℚ), rate := (0.95 : ℚ) }
  else
    { text := String.mk (trimWs sent), lang := lang, voice := s.selectedVoice,
      pitch := jsOrQ o.pitch (jsOrQ s.defaultPitch 1), rate := jsOrQ o.rate (0.9 : ℚ) }

/-- The sentences array of the local path:
`readableText.match(...) || [readableText]`. -/
def speakSentences (readable : List Char) : List (List Char) :=
  match sentSplit readable with
  | [] => [readable]
  | ss => ss

/-- What one `speak` call does synchronously besides mutating state: either
it starts the remote path (with the sanitized text and base language it
sends), or it runs the local path, submitting a list of utterances and
possibly attaching the `onStart`/`onEnd` callbacks. -/
inductive SpeakAct where
  | remote (text : String) (lang : String)
  | localPath (utts : List Utt) (onStartAttached onEndAttached : Bool)
deriving DecidableEq, Repr

def SpeakAct.isRemote : SpeakAct → Bool
  | .remote _ _ => true
  | .localPath _ _ _ => false

/-- The local (Web Speech API) branch of `speak`, after the fallback
decision: opportunistically select a voice if none is selected and the
catalog is non-empty, segment into sentences, submit one utterance per
non-blank sentence, and attach `onStart` to the utterance of the first
sentence and `onEnd` to that of the last sentence (a blank first or last
sentence is skipped together with its callback). -/
def localDispatch (s : St) (readable : List Char) (lang : String) (o : SpeakOptions) :
    St × SpeakAct :=
  let baseLang := primary lang
  let s1 :=
    if s.selectedVoice.isNone && !s.voices.isEmpty then
      { s with selectedVoice :=
          jsOrO (s.voices.find? (fun v => strStarts v.lang baseLang)) s.voices.head? }
    else s
  let sents := speakSentences readable
  let utts := (sents.filter (fun x => !(trimWs x).isEmpty)).map (uttOf s1 lang o)
  let startA := o.hasOnStart && (match sents.head? with
    | some s0 => !(trimWs s0).isEmpty
    | none => false)
  let endA := o.hasOnEnd && (match sents.getLast? with
    | some sl => !(trimWs sl).isEmpty
    | none => false)
  ({ s1 with synthQueue := s1.synthQueue ++ utts }, .localPath utts startA endA)

/-- The synchronous prefix of `speak(text, options)`: unconditionally cancel
current speech, resolve the effective language (`options.lang ||
this.currentLang`), sanitize the text, decide the fallback
(`baseLang === 'ta' || !this.voices.some(v => v.lang.startsWith(baseLang))`),
and either enter the remote path (`playGoogleTTS` sets the remote flag and
suspends at the fetch) or run the whole local path. -/
def speakSync (s : St) (text : String) (o : SpeakOptions) : St × SpeakAct :=
  let s0 := stopSpeakingSt s
  let lang := jsOrStr o.lang s0.currentLang
  let baseLang := primary lang
  let readable := sanitizeL text.data
  let needsFallback :=
    baseLang == "ta" || !(s0.voices.any (fun v => strStarts v.lang baseLang))
  if needsFallback then
    ({ s0 with isGoogleSpeaking := true }, .remote (String.mk readable) baseLang)
  else
    localDispatch s0 readable lang o

/-- All state transitions of the controller: each public method, the inner
continuations of the remote path, and the asynchronous platform
notifications (`onend`/`onerror` of recognition, the TTS fetch resolution,
the audio element's `ended`/`error` events, the catch-block fallthrough of
`speak` that retries the local path after a remote failure, and the queue
consumption of the synthesis engine). -/
inductive Step : St → St → Prop where
  | loadVoices (s : St) (cat : List VoiceDesc) : Step s (loadVoicesSt s cat)
  | setVoice (s : St) (g l : String) : Step s (setVoiceSt s g l)
  | startListenOk (s : St) (h1 : s.recognitionAvail = true) (h2 : s.isListening = false) :
      Step s { s with isListening := true }
  | startListenThrow (s : St) (h1 : s.recognitionAvail = true) (h2 : s.isListening = false) :
      Step s { s with isListening := false }
  | recogEnd (s : St) : Step s { s with isListening := false }
  | recogError (s : St) : Step s { s with isListening := false }
  | stopListen (s : St) : Step s (stopListeningSt s)
  | speak (s : St) (text : String) (o : SpeakOptions) : Step s (speakSync s text o).1
  | stopSpeak (s : St) : Step s (stopSpeakingSt s)
  | ttsFetched (s : St) (blobUrl : String) :
      Step s { s with audioSrc := blobUrl, audioPaused := false }
  | audioEnded (s : St) : Step s { s with isGoogleSpeaking := false, audioPaused := true }
  | audioError (s : St) : Step s { s with isGoogleSpeaking := false }
  | remoteFallthrough (s : St) (readable : List Char) (lang : String) (o : SpeakOptions) :
      Step s (localDispatch s readable lang o).1
  | synthProgress (s : St) : Step s { s with synthQueue := s.synthQueue.drop 1 }
  | unlock (s : St) : Step s { s with audioSrc := silentWav, audioPaused := false }

/-- A state reachable from a freshly constructed controller through any
sequence of method calls and platform notifications. -/
def Reachable (s : St) : Prop :=
  ∃ recogSupported nav, Relation.ReflTransGen Step (initSt recogSupported nav) s

/-! ### No operation ever assigns the local-speaking flag -/

theorem setVoiceSt_isSpeakingFlag (s : St) (g l : String) :
    (setVoiceSt s g l).isSpeakingFlag = s.isSpeakingFlag := rfl

theorem loadVoicesSt_isSpeakingFlag (s : St) (cat : List VoiceDesc) :
    (loadVoicesSt s cat).isSpeakingFlag = s.isSpeakingFlag := by
  unfold loadVoicesSt
  split <;> rfl

theorem stopSpeakingSt_isSpeakingFlag (s : St) :
    (stopSpeakingSt s).isSpeakingFlag = s.isSpeakingFlag := rfl

theorem stopListeningSt_isSpeakingFlag (s : St) :
    (stopListeningSt s).isSpeakingFlag = s.isSpeakingFlag := by
  unfold stopListeningSt
  split <;> rfl

theorem localDispatch_fst_isSpeakingFlag (s : St) (r : List Char) (lg : String)
    (o : SpeakOptions) : (localDispatch s r lg o).1.isSpeakingFlag = s.isSpeakingFlag := by
  unfold localDispatch
  split <;> rfl

theorem speakSync_fst_isSpeakingFlag (s : St) (text : String) (o : SpeakOptions) :
    (speakSync s text o).1.isSpeakingFlag = s.isSpeakingFlag := by
  simp only [speakSync]
  split
  · rfl
  · exact localDispatch_fst_isSpeakingFlag _ _ _ _

theorem step_isSpeakingFlag {s s' : St} (h : Step s s') :
    s'.isSpeakingFlag = s.isSpeakingFlag := by
  cases h with
  | loadVoices cat => exact loadVoicesSt_isSpeakingFlag s cat
  | setVoice g l => exact setVoiceSt_isSpeakingFlag s g l
  | startListenOk h1 h2 => rfl
  | startListenThrow h1 h2 => rfl
  | recogEnd => rfl
  | recogError => rfl
  | stopListen => exact stopListeningSt_isSpeakingFlag s
  | speak text o => exact speakSync_fst_isSpeakingFlag s text o
  | stopSpeak => exact stopSpeakingSt_isSpeakingFlag s
  | ttsFetched blobUrl => rfl
  | audioEnded => rfl
  | audioError => rfl
  | remoteFallthrough readable lang o => exact localDispatch_fst_isSpeakingFlag s readable lang o
  | synthProgress => rfl
  | unlock => rfl

/-- The local-speaking flag is false in every reachable state: it is
initialized to false and no transition writes it. -/
theorem reachable_flag_false {s : St} (h : Reachable s) : s.isSpeakingFlag = false := by
  obtain ⟨ra, nav, hsteps⟩ := h
  induction hsteps with
  | refl => rfl
  | tail _ hstep ih => rw [step_isSpeakingFlag hstep]; exact ih

/-- C9: `isSpeakingFlag` is initialized to false by the constructor and is
never assigned by any method or event handler of the controller, so it is
false in every reachable state; local-synthesis activity is not observable
through the controller's state. -/
theorem isSpeakingFlag_always_false :
    (∀ recogSupported nav, (initSt recogSupported nav).isSpeakingFlag = false) ∧
    (∀ s : St, Reachable s → s.isSpeakingFlag = false) :=
  ⟨fun _ _ => rfl, fun _ h => reachable_flag_false h⟩

theorem isSpeakingFlag_always_false_witness :
    (initSt true "en-US").isSpeakingFlag = false :=
  isSpeakingFlag_always_false.2 (initSt true "en-US")
    ⟨true, "en-US", Relation.ReflTransGen.refl⟩

theorem stopSpeakingSt_idem (s : St) : stopSpeakingSt (stopSpeakingSt s) = stopSpeakingSt s := rfl

/-- C2: in every reachable state at most one of the local-speaking and
remote-speaking flags is true (the local one is never true), and `speak`
always cancels in-flight speech first: its result from any state is the
result from the corresponding stopped state. -/
theorem speak_mutual_exclusion :
    (∀ s : St, Reachable s → ¬(s.isSpeakingFlag = true ∧ s.isGoogleSpeaking = true)) ∧
    (∀ (s : St) (text : String) (o : SpeakOptions),
      speakSync s text o = speakSync (stopSpeakingSt s) text o) := by
  constructor
  · intro s hre hcontra
    rw [reachable_flag_false hre] at hcontra
    exact Bool.false_ne_true hcontra.1
  · intro s text o
    unfold speakSync
    rw [stopSpeakingSt_idem]

theorem speak_mutual_exclusion_witness :
    ¬((initSt true "en-US").isSpeakingFlag = true ∧ (initSt true "en-US").isGoogleSpeaking = true) :=
  speak_mutual_exclusion.1 (initSt true "en-US") ⟨true, "en-US", Relation.ReflTransGen.refl⟩

/-- C8: `stopSpeaking()` always empties the local synthesis queue, pauses
and rewinds the remote audio, clears the remote-speaking flag (and, in any
reachable state, both speaking flags are false afterwards), and calling it
when nothing is active changes nothing — it is a total function, never an
error. -/
theorem stopSpeaking_contract :
    (∀ s : St, (stopSpeakingSt s).synthQueue = [] ∧ (stopSpeakingSt s).audioPaused = true ∧
      (stopSpeakingSt s).audioTime = 0 ∧ (stopSpeakingSt s).isGoogleSpeaking = false) ∧
    (∀ s : St, Reachable s →
      (stopSpeakingSt s).isSpeakingFlag = false ∧ (stopSpeakingSt s).isGoogleSpeaking = false) ∧
    (∀ s : St, s.synthQueue = [] → s.audioPaused = true → s.audioTime = 0 →
      s.isGoogleSpeaking = false → stopSpeakingSt s = s) := by
  refine ⟨fun s => ⟨rfl, rfl, rfl, rfl⟩, fun s h => ⟨?_, rfl⟩, fun s hq hp ht hg => ?_⟩
  · rw [stopSpeakingSt_isSpeakingFlag]
    exact reachable_flag_false h
  · cases s
    simp only [stopSpeakingSt] at *
    simp_all

theorem stopSpeaking_contract_witness :
    ((stopSpeakingSt (initSt true "en-US")).isSpeakingFlag = false ∧
      (stopSpeakingSt (initSt true "en-US")).isGoogleSpeaking = false) ∧
    stopSpeakingSt (initSt true "en-US") = initSt true "en-US" :=
  ⟨stopSpeaking_contract.2.1 (initSt true "en-US") ⟨true, "en-US", Relation.ReflTransGen.refl⟩,
   stopSpeaking_contract.2.2 (initSt true "en-US") rfl rfl rfl rfl⟩

/-- A reachable state in which a recognition session is listening. -/
def stListening : St := { initSt true "en-US" with isListening := true }

/-- C5 counterexample: with recognition available and a session listening,
`stopListening()` synchronously sets the listening flag to false — the flag
is not still true when the call returns. -/
theorem stopListening_synchronous_cex :
    Reachable stListening ∧
    stListening.recognitionAvail = true ∧ stListening.isListening = true ∧
    (stopListeningSt stListening).isListening = false :=
  ⟨⟨true, "en-US", Relation.ReflTransGen.single (Step.startListenOk (initSt true "en-US") rfl rfl)⟩,
   rfl, rfl, rfl⟩

/-- C5 (amended): `stopListening()`, called while recognition is available
and the session is listening, synchronously clears the listening flag (in
addition to requesting the platform stop); the later platform end-of-session
notification finds the flag already false. -/
theorem stopListening_clears_flag (s : St) (h1 : s.recognitionAvail = true)
    (h2 : s.isListening = true) : (stopListeningSt s).isListening = false := by
  unfold stopListeningSt
  rw [if_pos (by rw [h1, h2]; rfl)]

theorem stopListening_clears_flag_witness :
    (stopListeningSt stListening).isListening = false :=
  stopListening_clears_flag stListening rfl rfl

/-! ### C1: the remote-fallback decision of speak -/

theorem stopSpeakingSt_voices (s : St) : (stopSpeakingSt s).voices = s.voices := rfl

theorem stopSpeakingSt_currentLang (s : St) :
    (stopSpeakingSt s).currentLang = s.currentLang := rfl

theorem localDispatch_snd_isRemote (s : St) (r : List Char) (lg : String) (o : SpeakOptions) :
    (localDispatch s r lg o).2.isRemote = false := rfl

/-- The dispatcher attempts the remote path exactly when the source's
`needsFallback` boolean is true. -/
theorem speakSync_isRemote_eq (s : St) (text : String) (o : SpeakOptions) :
    (speakSync s text o).2.isRemote =
      (primary (jsOrStr o.lang s.currentLang) == "ta" ||
        !(s.voices.any (fun v => strStarts v.lang (primary (jsOrStr o.lang s.currentLang))))) := by
  simp only [speakSync, stopSpeakingSt_voices, stopSpeakingSt_currentLang]
  split
  · next h => rw [h]; rfl
  · next h =>
    rw [localDispatch_snd_isRemote]
    exact (Bool.not_eq_true _ ▸ h : _ = false).symm

/-- The effective language exactly as the claim words it: `options.lang`
when supplied, else the controller's current language tag. -/
def claimEffLang (s : St) (o : SpeakOptions) : String :=
  match o.lang with
  | some l => l
  | none => s.currentLang

/-- A state whose catalog holds one French voice while the current language
is English, used with an empty supplied `options.lang`. -/
def stC1 : St := { initSt true "en-US" with voices := [⟨"Voix française", "fr-FR"⟩] }

def oEmptyLang : SpeakOptions :=
  { lang := some "", pitch := none, rate := none, hasOnStart := false, hasOnEnd := false }

/-- C1 counterexample: with `options.lang` supplied as the empty string, the
code treats it as absent (JS `||` falsiness) and decides the fallback on the
current language; the claim's effective language (the supplied tag) has an
empty primary subtag, which every voice matches, so the claim predicts a
local dispatch while the code attempts the remote path. -/
theorem speak_remote_iff_cex :
    (speakSync stC1 "Hello" oEmptyLang).2.isRemote = true ∧
    ¬(primary (claimEffLang stC1 oEmptyLang) = "ta" ∨
      ∀ v ∈ stC1.voices, strStarts v.lang (primary (claimEffLang stC1 oEmptyLang)) = false) := by
  refine ⟨by decide, ?_⟩
  intro hor
  rcases hor with he | hall
  · exact absurd he (by decide)
  · exact absurd (hall ⟨"Voix française", "fr-FR"⟩ (by decide)) (by decide)

/-- C1 (amended): the remote TTS path is attempted if and only if the
effective language's primary subtag equals `"ta"` or no catalog voice's
language tag starts with that primary subtag, where the effective language
is `options.lang` when supplied as a non-empty string (an empty supplied
tag is falsy in JS and falls back to the controller's current language);
and `speak("Hello", {lang: 'ta'})` always attempts the remote path,
whatever the catalog. -/
theorem speak_remote_decision (s : St) (text : String) (o : SpeakOptions) :
    ((speakSync s text o).2.isRemote = true ↔
      (primary (jsOrStr o.lang s.currentLang) = "ta" ∨
        ∀ v ∈ s.voices, strStarts v.lang (primary (jsOrStr o.lang s.currentLang)) = false)) ∧
    (o.lang = some "ta" → (speakSync s "Hello" o).2.isRemote = true) := by
  constructor
  · rw [speakSync_isRemote_eq]
    simp only [Bool.or_eq_true, beq_iff_eq, Bool.not_eq_true']
    constructor
    · intro h
      rcases h with he | hany
      · exact Or.inl he
      · refine Or.inr (fun v hv => ?_)
        by_contra hne
        have : s.voices.any (fun v => strStarts v.lang
            (primary (jsOrStr o.lang s.currentLang))) = true :=
          List.any_eq_true.mpr ⟨v, hv, by simpa using hne⟩
        rw [this] at hany
        exact absurd hany (by simp)
    · intro h
      rcases h with he | hall
      · exact Or.inl he
      · refine Or.inr ?_
        cases hany : s.voices.any (fun v => strStarts v.lang
            (primary (jsOrStr o.lang s.currentLang))) with
        | false => rfl
        | true =>
          obtain ⟨v, hv, hp⟩ := List.any_eq_true.mp hany
          rw [hall v hv] at hp
          exact absurd hp (by simp)
  · intro hta
    rw [speakSync_isRemote_eq, hta]
    have h1 : jsOrStr (some "ta") s.currentLang = "ta" := rfl
    rw [h1]
    have h2 : primary "ta" = "ta" := rfl
    rw [h2]
    simp

theorem speak_remote_decision_witness :
    (speakSync (initSt true "en-US") "Hello"
      { lang := some "ta", pitch := none, rate := none,
        hasOnStart := false, hasOnEnd := false }).2.isRemote = true :=
  (speak_remote_decision (initSt true "en-US") "Hello" _).2 rfl

/-! ### C10: a blank sanitized text on the local path submits nothing -/

theorem allSpace_of_trimWs_nil {l : List Char} (h : trimWs l = []) :
    ∀ c ∈ l, isJsSpace c = true := by
  intro c hc
  unfold trimWs at h
  obtain ⟨t, ht, hts⟩ := dropTrailWs_append (l.dropWhile isJsSpace)
  rw [h, List.nil_append] at ht
  rw [← List.takeWhile_append_dropWhile isJsSpace l] at hc
  rcases List.mem_append.mp hc with h1 | h2
  · exact List.mem_takeWhile_imp h1
  · exact hts c (ht ▸ h2)

theorem isTermCh_eq_false_of_space {c : Char} (h : isJsSpace c = true) :
    isTermCh c = false := by
  cases hc : isTermCh c with
  | false => rfl
  | true =>
    exfalso
    have hcs : c = '.' ∨ c = '!' ∨ c = '?' := by
      simpa [isTermCh, or_assoc] using hc
    rcases hcs with h1 | h1 | h1 <;> (subst h1; exact absurd h (by decide))

theorem speakSentences_allSpace {l : List Char} (h : ∀ c ∈ l, isJsSpace c = true) :
    speakSentences l = [l] := by
  cases l with
  | nil => rfl
  | cons a rest =>
    have hterm : ∀ c ∈ a :: rest, (fun x => !(isTermCh x)) c = true := fun c hc => by
      simp [isTermCh_eq_false_of_space (h c hc)]
    have htake : (a :: rest).takeWhile (fun x => !(isTermCh x)) = a :: rest :=
      List.takeWhile_eq_self_iff.mpr hterm
    have hdrop : (a :: rest).dropWhile (fun x => !(isTermCh x)) = [] :=
      List.dropWhile_eq_nil_iff.mpr hterm
    have hsplit : sentSplit (a :: rest) = [a :: rest] := by
      unfold sentSplit
      simp only [List.length_cons, sentSplitF]
      rw [if_neg (by rw [isTermCh_eq_false_of_space (h a (List.mem_cons_self a rest))]; simp)]
      rw [htake, hdrop]
      simp [sentSplitF]
    unfold speakSentences
    rw [hsplit]

theorem localDispatch_blank (s : St) (readable : List Char) (lg : String) (o : SpeakOptions)
    (hempty : trimWs readable = []) :
    (localDispatch s readable lg o).2 = SpeakAct.localPath [] false false ∧
    (localDispatch s readable lg o).1.synthQueue = s.synthQueue := by
  have hsents : speakSentences readable = [readable] :=
    speakSentences_allSpace (allSpace_of_trimWs_nil hempty)
  constructor
  · simp only [localDispatch, hsents]
    simp [hempty]
  · simp only [localDispatch, hsents]
    have hutts : ([readable].filter (fun x => !(trimWs x).isEmpty)) = [] := by
      simp [hempty]
    rw [hutts]
    split <;> simp

/-- C10: a `speak` call that takes the local path and whose sanitized text
is empty or whitespace-only returns normally having submitted no utterance;
neither `onStart` nor `onEnd` is attached (the single blank sentence is
skipped before the index-0 and last-index callback assignments), so
completion is never signalled to the caller. -/
theorem speak_blank_local_silent (s : St) (text : String) (o : SpeakOptions)
    (hlocal : (speakSync s text o).2.isRemote = false)
    (hempty : trimWs (sanitizeL text.data) = []) :
    (speakSync s text o).2 = SpeakAct.localPath [] false false ∧
    (speakSync s text o).1.synthQueue = [] := by
  rw [speakSync_isRemote_eq] at hlocal
  simp only [speakSync, stopSpeakingSt_voices, stopSpeakingSt_currentLang]
  rw [if_neg (by rw [hlocal]; simp)]
  have hld := localDispatch_blank (stopSpeakingSt s) (sanitizeL text.data)
    (jsOrStr o.lang s.currentLang) o hempty
  exact ⟨hld.1, hld.2.trans rfl⟩

theorem speak_blank_local_silent_witness :
    (speakSync stEnOnly "***"
        { lang := none, pitch := none, rate := none,
          hasOnStart := true, hasOnEnd := true }).2 = SpeakAct.localPath [] false false ∧
    (speakSync stEnOnly "***"
        { lang := none, pitch := none, rate := none,
          hasOnStart := true, hasOnEnd := true }).1.synthQueue = [] :=
  speak_blank_local_silent stEnOnly "***" _ (by decide) (by decide)

end AstraVoice
